import Mathlib

/-!
Shallow embedding of the Dirichlet-tree election-audit library
(`src/dirichlet_tree.hpp`, `RcppIRV.cpp` / `R_tree.cpp`).

Conventions of the embedding:

* Candidate indices are `Nat`; a ballot (`IRVBallot`) is the ordered list of
  candidate indices (source: `irv_ballot.hpp`, represented by its uses).
* The `std::mt19937` engine is abstracted: its state space is `Engine := Nat`
  and its operations (`operator()`, seeding from a string via `seed_seq` plus
  the 1000-draw warmup of `setSeed`, seeding from an `unsigned`, and
  `discard(state_size * 100)`) are bundled in an `EngineOps` record. All
  theorems quantify over the operations, so they hold for the concrete
  mt19937 transition as a special case.
* Pseudo-counts store only the observation increments `c_b`; the prior mass
  `a0` is added at sampling time, so a freshly materialized node carries all
  increments zero (lazy materialization).
* `Rcpp::stop` throws before returning, so fallible entry points return the
  untouched receiver state together with `Except.error`.
-/

/-- Abstract state of the `std::mt19937` engine. -/
abbrev Engine := Nat

/-- The operations the code performs on an `std::mt19937`.
`seedOfString` models `setSeed`: building a `seed_seq` from the string,
seeding, and discarding 1000 warmup draws (`dirichlet_tree.hpp`, `setSeed`).
`seedOfNat` models `std::mt19937 e(seeds[i])`. `warm` models
`discard(state_size * 100)`. `progress` models a call `engine()`. -/
structure EngineOps where
  progress : Engine → Nat × Engine
  seedOfString : String → Engine
  seedOfNat : Nat → Engine
  warm : Engine → Engine

/-- Error surface of the library (`Rcpp::stop` on invalid arguments). -/
inductive Err where
  | invalidArgument
deriving DecidableEq

/-- A ballot: an ordered sequence of candidate indices. -/
abbrev IRVBallot := List Nat

/-- Tree parameters (`IRVParameters` in `R_tree.cpp`): candidate count,
`minDepth`, `maxDepth`, prior concentration `a0`, and the
reducible-to-Dirichlet flag `vd`. -/
structure IRVParameters where
  nCandidates : Nat
  minDepth : Nat
  maxDepth : Nat
  a0 : ℚ
  vd : Bool
deriving DecidableEq

/-- Modelled from the spec: an interior node of the Dirichlet tree
(`tree_node.hpp` / `irv_node.hpp` are not under `src/`). A node carries the
halt-branch increment, the per-branch increments for continuing candidates,
and the materialized children, keyed by the branch candidate. Unmaterialized
children are equivalent to fresh nodes with all increments zero. -/
inductive IRVNodeT : Type where
  | mk : Nat → List (Nat × Nat) → List (Nat × IRVNodeT) → IRVNodeT

/-- A freshly materialized node: no observations recorded. -/
def freshIRVNode : IRVNodeT := IRVNodeT.mk 0 [] []

/-- Increment the entry of branch `k` by `c` in a branch-increment map,
materializing the entry at the end if absent. -/
def bump (k : Nat) (c : Nat) : List (Nat × Nat) → List (Nat × Nat)
  | [] => [(k, c)]
  | (k1, v) :: rest => if k = k1 then (k1, v + c) :: rest else (k1, v) :: bump k c rest

/-- Apply `f` to the child at branch `k`, materializing a fresh child first
when absent. -/
def updChild (k : Nat) (f : IRVNodeT → IRVNodeT) : List (Nat × IRVNodeT) → List (Nat × IRVNodeT)
  | [] => [(k, f freshIRVNode)]
  | (k1, v) :: rest => if k = k1 then (k1, f v) :: rest else (k1, v) :: updChild k f rest

/-- Modelled from the spec (§4.3.1, `irv_node.hpp` not under `src/`): update
along the ballot path. At depth `d` with ballot length `k`: if `k = d` the
halt increment grows by `count`, otherwise the branch for the next preferred
candidate grows by `count` and the update recurses into (and if necessary
materializes) that child. -/
def nodeUpdate : List Nat → Nat → IRVNodeT → IRVNodeT
  | [], count, IRVNodeT.mk h br ch => IRVNodeT.mk (h + count) br ch
  | x :: rest, count, IRVNodeT.mk h br ch =>
      IRVNodeT.mk h (bump x count br) (updChild x (nodeUpdate rest count) ch)

/-- Modelled from the spec (§4.3.1): empty ballots are skipped at the root;
otherwise the update runs along the path. -/
def rootUpdate (o : List Nat) (count : Nat) (nd : IRVNodeT) : IRVNodeT :=
  if o.isEmpty then nd else nodeUpdate o count nd

/-- The type of the posterior-predictive sampler `IRVNode::sample`
(its implementation file is not under `src/`): given the root, the
parameters, a requested number of ballots and the engine, it returns the
sampled ballots and the advanced engine. -/
abbrev SampleFn := IRVNodeT → IRVParameters → Nat → Engine → List IRVBallot × Engine

/-- The type of `IRVNode::marginalProbability` (not under `src/`): one Monte
Carlo draw of the marginal probability of the given ballot. -/
abbrev MarginalFn := IRVNodeT → IRVParameters → IRVBallot → Engine → ℚ × Engine

/-- The Dirichlet-tree facade (`dirichlet_tree.hpp`): root node, observed
outcomes, default engine, and parameters. -/
structure DirichletTree where
  root : IRVNodeT
  observed : List IRVBallot
  engine : Engine
  parameters : IRVParameters

/-- `DirichletTree::setSeed`: reseed the default engine from a string and
warm it up; the resulting engine state is a function of the string alone. -/
def DirichletTree.setSeed (ops : EngineOps) (t : DirichletTree) (seed : String) : DirichletTree :=
  { t with engine := ops.seedOfString seed }

/-- `DirichletTree::update` (`dirichlet_tree.hpp` lines 193-199): the outcome
is appended to the observed list unconditionally, then the root is updated
along the path. -/
def DirichletTree.update (t : DirichletTree) (o : IRVBallot) (count : Nat) : DirichletTree :=
  { t with
    observed := t.observed ++ [o]
    root := rootUpdate o count t.root }

/-- `DirichletTree::reset` (`dirichlet_tree.hpp` lines 186-191): the root is
deleted and replaced by a fresh node. The `observed` list is not touched by
this function in the source. -/
def DirichletTree.reset (t : DirichletTree) : DirichletTree :=
  { t with root := freshIRVNode }

/-- `DirichletTree::sample`: delegate to the root sampler. -/
def DirichletTree.sample (sampleFn : SampleFn) (t : DirichletTree) (n : Nat) (e : Engine) :
    List IRVBallot × Engine :=
  sampleFn t.root t.parameters n e

/-- The loop body of `DirichletTree::posteriorSets`: each iteration emits
the observed outcomes followed by `k` fresh posterior-predictive draws. -/
def posteriorSetsLoop (sampleFn : SampleFn) (t : DirichletTree) :
    Nat → Nat → Engine → List (List IRVBallot) × Engine
  | 0, _, e => ([], e)
  | i + 1, k, e =>
      let se := DirichletTree.sample sampleFn t k e
      let rest := posteriorSetsLoop sampleFn t i k se.2
      ((t.observed ++ se.1) :: rest.1, rest.2)

/-- `DirichletTree::posteriorSets` (`dirichlet_tree.hpp` lines 238-265).
The source iterates `for (auto i = 0; i < N; ++i)`, so the loop count is `N`
and the `nSets` argument does not reach the loop bound. Each produced list is
the observed outcomes followed by `N - n` fresh draws, where
`n = observed.size()`. -/
def DirichletTree.posteriorSets (sampleFn : SampleFn) (t : DirichletTree)
    (nSets N : Nat) (e : Engine) : List (List IRVBallot) × Engine :=
  posteriorSetsLoop sampleFn t N (N - t.observed.length) e

/-- First standing preference of a ballot: the first entry that is still
standing; exhausted ballots yield `none` (spec §4.5, `socialChoiceIRV` body
not under `src/`). -/
def firstPref (standing : List Nat) (b : IRVBallot) : Option Nat :=
  b.find? (fun x => standing.contains x)

/-- Tally of a standing candidate: the number of ballots whose first standing
preference is that candidate. -/
def tallyOf (bs : List IRVBallot) (standing : List Nat) (c : Nat) : Nat :=
  bs.countP (fun b => firstPref standing b == some c)

/-- The standing candidates achieving the minimum tally. -/
def tiedMin (bs : List IRVBallot) (standing : List Nat) : List Nat :=
  standing.filter (fun c => decide (∀ d ∈ standing, tallyOf bs standing c ≤ tallyOf bs standing d))

/-- Tie-breaking: a unique minimum candidate is eliminated outright;
otherwise one of the tied candidates is picked with a draw from the engine. -/
def pickTied (progress : Engine → Nat × Engine) (tied : List Nat) (e : Engine) : Nat × Engine :=
  if tied.length ≤ 1 then (tied.headD 0, e)
  else (tied.getD ((progress e).1 % tied.length) 0, (progress e).2)

/-- Modelled from the spec (§4.5, the `socialChoiceIRV` implementation file
is not under `src/`): the elimination loop. While more than one candidate
stands, the minimum-tally candidate (ties broken by the engine) is appended
to the elimination order and removed from the standing set; the last
standing candidate is appended at the end. The fuel argument equals the
initial number of candidates, which bounds the iteration count. -/
def scLoop (progress : Engine → Nat × Engine) (bs : List IRVBallot) :
    Nat → List Nat → Engine → List Nat × Engine
  | 0, standing, e => (standing, e)
  | _ + 1, [], e => ([], e)
  | _ + 1, [c], e => ([c], e)
  | fuel + 1, c1 :: c2 :: rest, e =>
      let tied := tiedMin bs (c1 :: c2 :: rest)
      let pe := pickTied progress tied e
      let oe := scLoop progress bs fuel ((c1 :: c2 :: rest).erase pe.1) pe.2
      (pe.1 :: oe.1, oe.2)

/-- Modelled from the spec: `socialChoiceIRV` computes the full elimination
order (winner last) of a multiset of ballots over `nCandidates` candidates. -/
def socialChoiceIRV (progress : Engine → Nat × Engine) (bs : List IRVBallot)
    (nCandidates : Nat) (e : Engine) : List Nat × Engine :=
  scLoop progress bs nCandidates (List.range nCandidates) e

/-- Accumulate the distinct candidate names of one ballot, preserving
first-seen order (`RSocialChoiceIRV`, `c2Index` / `cNames` construction). -/
def addNames (acc : List String) : List String → List String
  | [] => acc
  | nm :: rest => if nm ∈ acc then addNames acc rest else addNames (acc ++ [nm]) rest

/-- Collect the candidate names appearing in the ballots, skipping empty
ballots, in first-seen order. -/
def collectFrom (acc : List String) : List (List String) → List String
  | [] => acc
  | b :: rest => if b.isEmpty then collectFrom acc rest else collectFrom (addNames acc b) rest

/-- All candidate names of a ballot list (first-seen order, empty ballots
skipped), as built by `RSocialChoiceIRV`. -/
def collectCands (bs : List (List String)) : List String :=
  collectFrom [] bs

/-- The index-form ballots handed to the social choice function by
`RSocialChoiceIRV`: empty ballots are skipped, names become their index in
the first-seen candidate list. -/
def scBallots (bs : List (List String)) : List (List Nat) :=
  (bs.filter (fun b => !b.isEmpty)).map (fun b => b.map (fun nm => (collectCands bs).indexOf nm))

/-- `RSocialChoiceIRV` (`RcppIRV.cpp` lines 39-98): validate `nWinners`
against the number of candidates seen in the ballots, reject an empty ballot
multiset, then run IRV with a PRNG seeded from the string, splitting the
elimination order into eliminated names and winners. -/
def RSocialChoiceIRV (ops : EngineOps) (bs : List (List String)) (nWinners : Nat)
    (seed : String) : Except Err (List String × List String) :=
  if nWinners < 1 ∨ (collectCands bs).length ≤ nWinners then .error .invalidArgument
  else if scBallots bs = [] then .error .invalidArgument
  else
    let p := socialChoiceIRV ops.progress (scBallots bs) (collectCands bs).length
      (ops.warm (ops.seedOfString seed))
    let names := p.1.map (fun i => (collectCands bs).getD i "")
    .ok (names.take ((collectCands bs).length - nWinners),
         names.drop ((collectCands bs).length - nWinners))

/-- The host-side tree object (`RDirichletTree` in `R_tree.cpp`): the
underlying `DirichletTree`, the candidate names, the count of observed
ballots and the set of observed ballot depths. -/
structure RDirichletTree where
  tree : DirichletTree
  candidateVector : List String
  nObserved : Nat
  observedDepths : Finset Nat

/-- The candidate-name map: a name maps to its index in the candidate
vector, unknown names map to `none`. -/
def lookupCand (cv : List String) (nm : String) : Option Nat :=
  if nm ∈ cv then some (cv.indexOf nm) else none

/-- One ballot of `RDirichletTree::parseBallotList`: an unknown candidate
name aborts with `Rcpp::stop`. -/
def parseBallot (candMap : String → Option Nat) : List String → Except Err (List Nat)
  | [] => .ok []
  | nm :: rest =>
      match candMap nm with
      | none => .error .invalidArgument
      | some i =>
          match parseBallot candMap rest with
          | .error er => .error er
          | .ok ixs => .ok (i :: ixs)

/-- `RDirichletTree::parseBallotList` (`R_tree.cpp` lines 366-395): convert
every ballot to index form, each with multiplicity 1; the first unknown
candidate name aborts the whole call before any tree mutation. -/
def parseBallotList (candMap : String → Option Nat) :
    List (List String) → Except Err (List (List Nat × Nat))
  | [] => .ok []
  | b :: rest =>
      match parseBallot candMap b with
      | .error er => .error er
      | .ok ib =>
          match parseBallotList candMap rest with
          | .error er => .error er
          | .ok out => .ok ((ib, 1) :: out)

/-- The per-ballot body of `RDirichletTree::update`: bump `nObserved`,
update the tree, record the observed depth. -/
def RDirichletTree.applyOne (r : RDirichletTree) (bc : List Nat × Nat) : RDirichletTree :=
  { r with
    nObserved := r.nObserved + bc.2
    tree := r.tree.update bc.1 bc.2
    observedDepths := insert bc.1.length r.observedDepths }

/-- `RDirichletTree::update` (`R_tree.cpp` lines 479-507): parse all ballots
first, then apply them in order. The duplicate-candidate validation is
Modelled from the spec (§4.4: update validates that the ballot has no
duplicates; the validating code is not under `src/`); per the spec it fails
with InvalidArgument before any mutation. -/
def RDirichletTree.update (r : RDirichletTree) (ballots : List (List String)) :
    RDirichletTree × Except Err Unit :=
  match parseBallotList (lookupCand r.candidateVector) ballots with
  | .error er => (r, .error er)
  | .ok bcs =>
      if bcs.any (fun bc => decide ¬ bc.1.Nodup) then (r, .error .invalidArgument)
      else (bcs.foldl RDirichletTree.applyOne r, .ok ())

/-- `RDirichletTree::reset` (`R_tree.cpp` lines 473-477): reset the
underlying tree, zero `nObserved`, clear the observed depths. -/
def RDirichletTree.reset (r : RDirichletTree) : RDirichletTree :=
  { r with
    tree := r.tree.reset
    nObserved := 0
    observedDepths := ∅ }

/-- Replace the engine of the underlying tree (used to express dependence of
the entry points on the incoming PRNG state). -/
def RDirichletTree.setEngine (r : RDirichletTree) (e : Engine) : RDirichletTree :=
  { r with tree := { r.tree with engine := e } }

/-- Draw `k` 32-bit seeds from the engine (the `seeds` loop of
`samplePosterior`). -/
def drawSeeds (progress : Engine → Nat × Engine) : Nat → Engine → List Nat × Engine
  | 0, e => ([], e)
  | k + 1, e =>
      let se := progress e
      let rest := drawSeeds progress k se.2
      (se.1 :: rest.1, rest.2)

/-- Score each simulated election with the social choice function, threading
the batch engine (loop over `elections` in `getBatchResult`). -/
def runElections (progress : Engine → Nat × Engine) (nCandidates : Nat) :
    List (List IRVBallot) → Engine → List (List Nat) × Engine
  | [], e => ([], e)
  | el :: rest, e =>
      let oe := socialChoiceIRV progress el nCandidates e
      let others := runElections progress nCandidates rest oe.2
      (oe.1 :: others.1, others.2)

/-- One batch of `samplePosterior` (`getBatchResult`): seed a fresh engine
from the assigned seed, warm it up, sample the posterior sets, and score
each with IRV. -/
def batchResult (ops : EngineOps) (sampleFn : SampleFn) (t : DirichletTree)
    (nCandidates nBallots sd sz : Nat) : List (List Nat) :=
  let e := ops.warm (ops.seedOfNat sd)
  let pe := DirichletTree.posteriorSets sampleFn t sz nBallots e
  (runElections ops.progress nCandidates pe.1 pe.2).1

/-- The per-slot results of `samplePosterior`: slots below `nBatches` run
with `batchSize`; the remainder slot runs with `batchRemainder` only when it
is positive, otherwise it stays empty. -/
def samplePosteriorResults (ops : EngineOps) (sampleFn : SampleFn) (t : DirichletTree)
    (nCandidates nBallots batchSize batchRemainder nBatches : Nat) (seeds : List Nat)
    (i : Nat) : List (List Nat) :=
  if i < nBatches then batchResult ops sampleFn t nCandidates nBallots (seeds.getD i 0) batchSize
  else if 0 < batchRemainder then
    batchResult ops sampleFn t nCandidates nBallots (seeds.getD i 0) batchRemainder
  else []

/-- Execute the batch jobs in the order given by a schedule: each executed
slot stores its (schedule-independent) result in the results table. -/
def runSchedule {α : Type} (compute : Nat → α) : List Nat → (Nat → α) → (Nat → α)
  | [], res => res
  | i :: rest, res => runSchedule compute rest (Function.update res i (compute i))

/-- Increment entry `i` of the aggregation vector. -/
def bumpQ (v : List ℚ) (i : Nat) : List ℚ :=
  v.set i (v.getD i 0 + 1)

/-- Add one elimination order to the aggregation vector: each of its last
`nWinners` entries gains one win (`samplePosterior` aggregation loop). -/
def addOrder (nCandidates nWinners : Nat) (v : List ℚ) (ord : List Nat) : List ℚ :=
  (ord.drop (nCandidates - nWinners)).foldl bumpQ v

/-- Aggregate all recorded elimination orders into per-candidate win counts. -/
def aggregate (nCandidates nWinners : Nat) (orders : List (List Nat)) : List ℚ :=
  orders.foldl (addOrder nCandidates nWinners) (List.replicate nCandidates 0)

/-- The aggregation tail of `samplePosterior`: join the slot results in slot
order, aggregate, and divide by `nElections`. -/
def samplePosteriorWith (resultsAt : Nat → List (List Nat))
    (nCandidates nWinners nBatches nElections : Nat) : List ℚ :=
  (aggregate nCandidates nWinners (((List.range (nBatches + 1)).map resultsAt).flatten)).map
    (fun q => q / (nElections : ℚ))

/-- `RDirichletTree::samplePosterior` (`R_tree.cpp` lines 532-611),
parameterized by the thread-pool width and the order in which the batch jobs
run. The validity check precedes the reseeding; on failure the receiver is
returned untouched. On the valid path: reseed from the string, draw
`nBatches + 1` seeds, advance the tree engine by the warmup, split
`nElections` into batches, run every batch job (each writes its own slot),
and aggregate. -/
def RDirichletTree.samplePosteriorSched (ops : EngineOps) (sampleFn : SampleFn)
    (r : RDirichletTree) (nElections nBallots nWinners nBatches : Nat) (seed : String)
    (nThreads : Nat) (sched : List Nat) : RDirichletTree × Except Err (List ℚ) :=
  if nBallots < r.nObserved then (r, .error .invalidArgument)
  else
    let r1 := r.setEngine (ops.seedOfString seed)
    let nCands := r1.tree.parameters.nCandidates
    let se := drawSeeds ops.progress (nBatches + 1) r1.tree.engine
    let e2 := ops.warm se.2
    let batchSize := if nElections ≤ 1 then 0 else nElections / nBatches
    let batchRemainder := if nElections ≤ 1 then nElections else nElections % nBatches
    let resFun := samplePosteriorResults ops sampleFn r1.tree nCands nBallots
      batchSize batchRemainder nBatches se.1
    let resultsAt := runSchedule resFun sched (fun _ => [])
    let out := samplePosteriorWith resultsAt nCands nWinners nBatches nElections
    (r1.setEngine e2, .ok out)

/-- `RDirichletTree::samplePosterior`: the jobs run in slot order (workers
0..nBatches-1, then the remainder on the calling thread). -/
def RDirichletTree.samplePosterior (ops : EngineOps) (sampleFn : SampleFn)
    (r : RDirichletTree) (nElections nBallots nWinners nBatches : Nat) (seed : String) :
    RDirichletTree × Except Err (List ℚ) :=
  r.samplePosteriorSched ops sampleFn nElections nBallots nWinners nBatches seed 0
    (List.range (nBatches + 1))

/-- `RDirichletTree::samplePredictive` (`R_tree.cpp` lines 509-530): reseed
from the string, sample from the posterior predictive with the tree engine,
convert indices back to names. -/
def RDirichletTree.samplePredictive (ops : EngineOps) (sampleFn : SampleFn)
    (r : RDirichletTree) (nSamples : Nat) (seed : String) :
    List (List String) × RDirichletTree :=
  let r1 := r.setEngine (ops.seedOfString seed)
  let se := sampleFn r1.tree.root r1.tree.parameters nSamples r1.tree.engine
  (se.1.map (fun b => b.map (fun i => r1.candidateVector.getD i "")), r1.setEngine se.2)

/-- The sampling loop of `sampleMarginalProbability`: `nSamples` marginal
draws threading the tree engine. -/
def marginalLoop (marginalFn : MarginalFn) (root : IRVNodeT) (ps : IRVParameters)
    (b : IRVBallot) : Nat → Engine → List ℚ × Engine
  | 0, e => ([], e)
  | k + 1, e =>
      let pe := marginalFn root ps b e
      let rest := marginalLoop marginalFn root ps b k pe.2
      (pe.1 :: rest.1, rest.2)

/-- `sampleMarginalProbability` (`RcppIRV.cpp` lines 308-331): reseed from
the string, convert the name ballot to indices (an absent name yields index
0, as `operator[]` default-inserts), then draw `nSamples` marginal
probabilities with the tree engine. -/
def RDirichletTree.sampleMarginalProbability (ops : EngineOps) (marginalFn : MarginalFn)
    (r : RDirichletTree) (nSamples : Nat) (ballot : List String) (seed : String) :
    List ℚ × RDirichletTree :=
  let r1 := r.setEngine (ops.seedOfString seed)
  let prefs : IRVBallot := ballot.map (fun nm => (lookupCand r1.candidateVector nm).getD 0)
  let pe := marginalLoop marginalFn r1.tree.root r1.tree.parameters prefs nSamples r1.tree.engine
  (pe.1, r1.setEngine pe.2)

/-- A concrete engine: drawing yields the state and increments it; seeding
and warmup are trivial. Used only to instantiate the quantified theorems at
closed inputs. -/
def toyOps : EngineOps :=
  { progress := fun e => (e, e + 1)
    seedOfString := fun _ => 0
    seedOfNat := fun n => n
    warm := fun e => e }

/-- Modelled from the spec (§8 invariant 2: `sample(n)` returns exactly `n`
ballots; the sampler implementation is not under `src/`): a concrete sampler
returning `n` empty ballots, used only to instantiate the quantified
theorems at closed inputs — the ballots' content is irrelevant to the
counting and determinism properties evaluated with it. -/
def toySample : SampleFn := fun _ _ n e => (List.replicate n [], e)

/-- A concrete marginal sampler for closed instances. -/
def toyMarginal : MarginalFn := fun _ _ _ e => (0, e + 1)

/-- Concrete parameters: two candidates, full depth range, `a0 = 1`. -/
def params0 : IRVParameters :=
  { nCandidates := 2, minDepth := 0, maxDepth := 2, a0 := 1, vd := false }

/-- A fresh two-candidate tree. -/
def t0 : DirichletTree :=
  { root := freshIRVNode, observed := [], engine := 0, parameters := params0 }

/-- A fresh host-side tree over candidates `A`, `B`. -/
def r0 : RDirichletTree :=
  { tree := t0, candidateVector := ["A", "B"], nObserved := 0, observedDepths := ∅ }

/-- The host-side tree after observing the single ballot `(A)`. -/
def r1 : RDirichletTree :=
  (RDirichletTree.update r0 [["A"]]).1

/-! ### Helper lemmas: node update algebra -/

theorem bump_bump (k c1 c2 : Nat) :
    ∀ l : List (Nat × Nat), bump k c2 (bump k c1 l) = bump k (c1 + c2) l := by
  intro l
  induction l with
  | nil => simp [bump]
  | cons p rest ih =>
      obtain ⟨k1, v⟩ := p
      by_cases h : k = k1
      · subst h
        simp [bump, Nat.add_assoc]
      · simp [bump, h, ih]

theorem updChild_congr (k : Nat) {f g : IRVNodeT → IRVNodeT} (hfg : ∀ x, f x = g x) :
    ∀ ch : List (Nat × IRVNodeT), updChild k f ch = updChild k g ch := by
  intro ch
  induction ch with
  | nil => simp [updChild, hfg]
  | cons p rest ih =>
      obtain ⟨k1, v⟩ := p
      by_cases h : k = k1
      · subst h
        simp [updChild, hfg]
      · simp [updChild, h, ih]

theorem updChild_updChild (k : Nat) (f g : IRVNodeT → IRVNodeT) :
    ∀ ch : List (Nat × IRVNodeT), updChild k g (updChild k f ch) = updChild k (fun x => g (f x)) ch := by
  intro ch
  induction ch with
  | nil => simp [updChild]
  | cons p rest ih =>
      obtain ⟨k1, v⟩ := p
      by_cases h : k = k1
      · subst h
        simp [updChild]
      · simp [updChild, h, ih]

theorem nodeUpdate_nodeUpdate (o : List Nat) (c1 c2 : Nat) :
    ∀ nd : IRVNodeT, nodeUpdate o c2 (nodeUpdate o c1 nd) = nodeUpdate o (c1 + c2) nd := by
  induction o with
  | nil =>
      intro nd
      obtain ⟨h, br, ch⟩ := nd
      simp [nodeUpdate, Nat.add_assoc]
  | cons x rest ih =>
      intro nd
      obtain ⟨h, br, ch⟩ := nd
      simp only [nodeUpdate, IRVNodeT.mk.injEq, true_and]
      refine ⟨bump_bump x c1 c2 br, ?_⟩
      rw [updChild_updChild]
      exact updChild_congr x (fun nd2 => ih nd2) ch

theorem rootUpdate_rootUpdate (o : List Nat) (c1 c2 : Nat) (nd : IRVNodeT) :
    rootUpdate o c2 (rootUpdate o c1 nd) = rootUpdate o (c1 + c2) nd := by
  by_cases h : o.isEmpty
  · simp [rootUpdate, h]
  · simp [rootUpdate, h, nodeUpdate_nodeUpdate]

/-- C7: the claim states that updating with an empty ballot leaves the tree
unchanged and does not append the ballot to the observed list. The source
(`DirichletTree::update`) pushes the outcome unconditionally, so the
observed list grows; at the concrete fresh tree the claim is false. -/
theorem update_empty_ballot_appended :
    ¬ ((DirichletTree.update t0 [] 1).observed = t0.observed) := by
  decide

/-- C7 (amended): updating with an empty ballot leaves the root node, the
pseudo-counts, the engine and the parameters unchanged, but the empty ballot
is appended to the observed-ballots list. -/
theorem update_empty_ballot_behavior (t : DirichletTree) (count : Nat) :
    (t.update [] count).root = t.root ∧
    (t.update [] count).engine = t.engine ∧
    (t.update [] count).parameters = t.parameters ∧
    (t.update [] count).observed = t.observed ++ [[]] := by
  exact ⟨rfl, rfl, rfl, rfl⟩

/-- C8: the claim states that two count-1 updates with the same ballot yield
exactly the same tree state as one count-2 update. The observed lists differ
(two entries versus one) at the concrete fresh tree and ballot `(0)`. -/
theorem double_update_observed_differs :
    ¬ (((t0.update [0] 1).update [0] 1).observed = (t0.update [0] 2).observed) := by
  decide

/-- C8 (amended): for a valid non-empty ballot, two count-1 updates produce
the same root node and pseudo-counts, engine and parameters as one count-2
update, but the observed-ballots list receives two copies of the ballot in
the first case and a single copy in the second. -/
theorem double_update_amended (t : DirichletTree) (b : IRVBallot)
    (hb : b ≠ []) (hnd : b.Nodup) (hmem : ∀ x ∈ b, x < t.parameters.nCandidates) :
    ((t.update b 1).update b 1).root = (t.update b 2).root ∧
    ((t.update b 1).update b 1).engine = (t.update b 2).engine ∧
    ((t.update b 1).update b 1).parameters = (t.update b 2).parameters ∧
    ((t.update b 1).update b 1).observed = t.observed ++ [b, b] ∧
    (t.update b 2).observed = t.observed ++ [b] := by
  refine ⟨?_, rfl, rfl, ?_, rfl⟩
  · show rootUpdate b 1 (rootUpdate b 1 t.root) = rootUpdate b 2 t.root
    exact rootUpdate_rootUpdate b 1 1 t.root
  · show (t.observed ++ [b]) ++ [b] = t.observed ++ [b, b]
    simp

/-- C8 witness: the amended statement at the fresh two-candidate tree and
ballot `(0)`. -/
theorem double_update_amended_witness :
    ((t0.update [0] 1).update [0] 1).root = (t0.update [0] 2).root ∧
    ((t0.update [0] 1).update [0] 1).engine = (t0.update [0] 2).engine ∧
    ((t0.update [0] 1).update [0] 1).parameters = (t0.update [0] 2).parameters ∧
    ((t0.update [0] 1).update [0] 1).observed = t0.observed ++ [[0], [0]] ∧
    (t0.update [0] 2).observed = t0.observed ++ [[0]] :=
  double_update_amended t0 [0] (by decide) (by decide) (by decide)

/-! ### Helper lemmas: the IRV elimination order is a permutation -/

theorem getD_mem : ∀ (l : List Nat) (n : Nat), n < l.length → l.getD n 0 ∈ l := by
  intro l
  induction l with
  | nil => intro n h; simp at h
  | cons x xs ih =>
      intro n h
      cases n with
      | zero => simp
      | succ m =>
          rw [List.getD_cons_succ]
          exact List.mem_cons_of_mem _ (ih m (by simpa using h))

theorem exists_min_on (f : Nat → Nat) :
    ∀ (l : List Nat), l ≠ [] → ∃ c ∈ l, ∀ d ∈ l, f c ≤ f d := by
  intro l
  induction l with
  | nil => intro h; exact absurd rfl h
  | cons x xs ih =>
      intro _
      rcases xs with _ | ⟨y, ys⟩
      · exact ⟨x, by simp, by simp⟩
      · obtain ⟨c, hc, hmin⟩ := ih (by simp)
        by_cases hx : f x ≤ f c
        · refine ⟨x, by simp, ?_⟩
          intro d hd
          rcases List.mem_cons.mp hd with h1 | h1
          · subst h1; exact le_rfl
          · exact le_trans hx (hmin d h1)
        · refine ⟨c, List.mem_cons_of_mem _ hc, ?_⟩
          intro d hd
          rcases List.mem_cons.mp hd with h1 | h1
          · subst h1; exact le_of_not_le hx
          · exact hmin d h1

theorem tiedMin_ne_nil (bs : List IRVBallot) (standing : List Nat) (h : standing ≠ []) :
    tiedMin bs standing ≠ [] := by
  obtain ⟨c, hc, hmin⟩ := exists_min_on (tallyOf bs standing) standing h
  have hmem : c ∈ tiedMin bs standing := by
    unfold tiedMin
    rw [List.mem_filter]
    exact ⟨hc, decide_eq_true hmin⟩
  exact List.ne_nil_of_mem hmem

theorem tiedMin_subset (bs : List IRVBallot) (standing : List Nat) (c : Nat)
    (h : c ∈ tiedMin bs standing) : c ∈ standing :=
  List.mem_of_mem_filter h

theorem pickTied_mem (progress : Engine → Nat × Engine) (tied : List Nat) (e : Engine)
    (h : tied ≠ []) : (pickTied progress tied e).1 ∈ tied := by
  unfold pickTied
  split
  · rcases tied with _ | ⟨t, ts⟩
    · exact absurd rfl h
    · simp
  · next hlen =>
      apply getD_mem
      apply Nat.mod_lt
      rcases tied with _ | ⟨t, ts⟩
      · exact absurd rfl h
      · simp

theorem scLoop_perm (progress : Engine → Nat × Engine) (bs : List IRVBallot) :
    ∀ (fuel : Nat) (standing : List Nat) (e : Engine), standing.length ≤ fuel →
      ((scLoop progress bs fuel standing e).1).Perm standing := by
  intro fuel
  induction fuel with
  | zero =>
      intro standing e h
      have hnil : standing = [] := List.length_eq_zero.mp (Nat.le_zero.mp h)
      subst hnil
      simp [scLoop]
  | succ n ih =>
      intro standing e h
      rcases standing with _ | ⟨c1, _ | ⟨c2, rest⟩⟩
      · simp [scLoop]
      · simp [scLoop]
      · have hne : tiedMin bs (c1 :: c2 :: rest) ≠ [] := tiedMin_ne_nil bs _ (by simp)
        have hmem : (pickTied progress (tiedMin bs (c1 :: c2 :: rest)) e).1 ∈ c1 :: c2 :: rest :=
          tiedMin_subset bs _ _ (pickTied_mem progress _ e hne)
        have hlen :
            ((c1 :: c2 :: rest).erase
              (pickTied progress (tiedMin bs (c1 :: c2 :: rest)) e).1).length ≤ n := by
          rw [List.length_erase_of_mem hmem]
          simp only [List.length_cons] at h ⊢
          omega
        have ihp := ih ((c1 :: c2 :: rest).erase
            (pickTied progress (tiedMin bs (c1 :: c2 :: rest)) e).1)
          (pickTied progress (tiedMin bs (c1 :: c2 :: rest)) e).2 hlen
        show ((pickTied progress (tiedMin bs (c1 :: c2 :: rest)) e).1 ::
            (scLoop progress bs n
              ((c1 :: c2 :: rest).erase
                (pickTied progress (tiedMin bs (c1 :: c2 :: rest)) e).1)
              (pickTied progress (tiedMin bs (c1 :: c2 :: rest)) e).2).1).Perm
          (c1 :: c2 :: rest)
        exact (ihp.cons _).trans (List.perm_cons_erase hmem).symm

theorem socialChoiceIRV_perm (progress : Engine → Nat × Engine) (bs : List IRVBallot)
    (n : Nat) (e : Engine) : ((socialChoiceIRV progress bs n e).1).Perm (List.range n) := by
  unfold socialChoiceIRV
  exact scLoop_perm progress bs n (List.range n) e (by simp)

theorem map_getD_range {α : Type} (l : List α) (d : α) :
    (List.range l.length).map (fun i => l.getD i d) = l := by
  induction l with
  | nil => simp
  | cons x xs ih =>
      rw [List.length_cons, List.range_succ_eq_map, List.map_cons, List.map_map]
      have hfun : ((fun i => (x :: xs).getD i d) ∘ Nat.succ) = fun i => xs.getD i d := by
        funext i
        rfl
      rw [hfun, ih]
      rfl

theorem collectFrom_of_all_empty :
    ∀ (bs : List (List String)) (acc : List String),
      (∀ b ∈ bs, b.isEmpty = true) → collectFrom acc bs = acc := by
  intro bs
  induction bs with
  | nil => intro acc _; rfl
  | cons b rest ih =>
      intro acc h
      have hb : b.isEmpty = true := h b (by simp)
      simp only [collectFrom, hb, if_true]
      exact ih acc (fun x hx => h x (by simp [hx]))

theorem scBallots_nonempty (bs : List (List String)) (h : collectCands bs ≠ []) :
    ¬ (scBallots bs = []) := by
  intro hemp
  have h2 : bs.filter (fun b => !b.isEmpty) = [] := by
    have hlen := congrArg List.length hemp
    simp only [scBallots, List.length_map] at hlen
    exact List.length_eq_zero.mp hlen
  have h3 : ∀ b ∈ bs, b.isEmpty = true := by
    intro b hb
    by_contra hbe
    have hmem : b ∈ bs.filter (fun b => !b.isEmpty) := by
      rw [List.mem_filter]
      exact ⟨hb, by simp [hbe]⟩
    rw [h2] at hmem
    exact absurd hmem (List.not_mem_nil b)
  exact h (collectFrom_of_all_empty bs [] h3)

/-- C9: `RSocialChoiceIRV` errors when `nWinners` is zero or at least the
number of candidates appearing in the ballots, errors on an empty ballot
multiset, and otherwise returns the eliminated candidates followed by the
winners — together a permutation of the candidates, with the first
`nCandidates - nWinners` names eliminated and the last `nWinners` winning. -/
theorem RSocialChoiceIRV_contract (ops : EngineOps) (bs : List (List String))
    (nWinners : Nat) (seed : String) :
    ((nWinners < 1 ∨ (collectCands bs).length ≤ nWinners) →
      RSocialChoiceIRV ops bs nWinners seed = .error .invalidArgument) ∧
    (bs = [] → RSocialChoiceIRV ops bs nWinners seed = .error .invalidArgument) ∧
    (1 ≤ nWinners → nWinners < (collectCands bs).length →
      ∃ elim winners, RSocialChoiceIRV ops bs nWinners seed = .ok (elim, winners) ∧
        elim.length = (collectCands bs).length - nWinners ∧
        winners.length = nWinners ∧
        (elim ++ winners).Perm (collectCands bs)) := by
  refine ⟨?_, ?_, ?_⟩
  · intro h
    unfold RSocialChoiceIRV
    rw [if_pos h]
  · intro h
    subst h
    unfold RSocialChoiceIRV
    rw [if_pos]
    right
    exact Nat.zero_le _
  · intro h1 h2
    have hcond : ¬ (nWinners < 1 ∨ (collectCands bs).length ≤ nWinners) := by
      push_neg
      exact ⟨h1, h2⟩
    have hc : collectCands bs ≠ [] := by
      intro hnil
      rw [hnil] at h2
      simp at h2
    have hsc : ¬ (scBallots bs = []) := scBallots_nonempty bs hc
    unfold RSocialChoiceIRV
    rw [if_neg hcond, if_neg hsc]
    have hperm : ((socialChoiceIRV ops.progress (scBallots bs) (collectCands bs).length
        (ops.warm (ops.seedOfString seed))).1).Perm (List.range (collectCands bs).length) :=
      socialChoiceIRV_perm ops.progress (scBallots bs) (collectCands bs).length
        (ops.warm (ops.seedOfString seed))
    have hnames : ((socialChoiceIRV ops.progress (scBallots bs) (collectCands bs).length
        (ops.warm (ops.seedOfString seed))).1.map
          (fun i => (collectCands bs).getD i "")).Perm (collectCands bs) := by
      have hmap := hperm.map (fun i => (collectCands bs).getD i "")
      rwa [map_getD_range (collectCands bs) ""] at hmap
    have hnameslen : ((socialChoiceIRV ops.progress (scBallots bs) (collectCands bs).length
        (ops.warm (ops.seedOfString seed))).1.map
          (fun i => (collectCands bs).getD i "")).length = (collectCands bs).length :=
      hnames.length_eq
    refine ⟨_, _, rfl, ?_, ?_, ?_⟩
    · rw [List.length_take, hnameslen]
      exact Nat.min_eq_left (Nat.sub_le _ _)
    · rw [List.length_drop, hnameslen]
      omega
    · rw [List.take_append_drop]
      exact hnames

/-- C9 witness: the error branches at concrete inputs — `nWinners = 0` with
two one-name ballots, and the empty ballot list. -/
theorem RSocialChoiceIRV_contract_witness :
    RSocialChoiceIRV toyOps [["A"], ["B"]] 0 "s" = .error .invalidArgument ∧
    RSocialChoiceIRV toyOps [] 1 "s" = .error .invalidArgument :=
  ⟨(RSocialChoiceIRV_contract toyOps [["A"], ["B"]] 0 "s").1 (Or.inl (by decide)),
   (RSocialChoiceIRV_contract toyOps [] 1 "s").2.1 rfl⟩

/-! ### Claims on posteriorSets, reset, and the posterior driver -/

/-- C1: the claim (and the function's own documentation) says
`posteriorSets(n_sets, N)` returns exactly `n_sets` lists. The source loop
runs `for (i = 0; i < N; ++i)`, so with `nSets = 1` and `N = 2` on a tree
with no observed ballots the call returns 2 lists, not 1. -/
theorem posteriorSets_returns_N_lists :
    (DirichletTree.posteriorSets toySample t0 1 2 0).1.length = 2 ∧
    ¬ ((DirichletTree.posteriorSets toySample t0 1 2 0).1.length = 1) := by
  decide

/-- C2: after observing ballot `(A)` and calling `reset`, the wrapper zeroes
`nObserved` and the observed depths and the root is fresh again, but the
observed-ballots list of the underlying tree still holds the ballot —
`DirichletTree::reset` never clears it, contradicting the claim (and the
function's own documentation) that all observed ballots are erased. -/
theorem reset_keeps_observed_list :
    (RDirichletTree.reset r1).tree.observed = [[0]] ∧
    (RDirichletTree.reset r1).nObserved = 0 ∧
    (RDirichletTree.reset r1).observedDepths = ∅ ∧
    (RDirichletTree.reset r1).tree.root = freshIRVNode ∧
    (RDirichletTree.reset r1).tree.parameters = r1.tree.parameters := by
  refine ⟨by decide, rfl, rfl, rfl, rfl⟩

/-- C3: the claim says the posterior driver returns a vector of length
`nCandidates` whose entries sum to `nWinners`. With 2 candidates, no
observed ballots, `nElections = nBallots = nWinners = nBatches = 1`, the
output has the right length but sums to 2: the `N`-bound loop of
`posteriorSets` makes every batch simulate `nBallots` elections instead of
its batch size. -/
theorem samplePosterior_sum_exceeds_winners :
    (RDirichletTree.samplePosterior toyOps toySample r0 1 1 1 1 "s").2.toOption.map
      (fun out => (out.sum, out.length)) = some ((2 : ℚ), 2) := by
  have hor : (RDirichletTree.samplePosterior toyOps toySample r0 1 1 1 1 "s").2
      = Except.ok ((aggregate 2 1 [[0, 1], [1, 0]]).map (fun q => q / ((1 : Nat) : ℚ))) := by
    rfl
  rw [hor]
  have hagg : aggregate 2 1 [[0, 1], [1, 0]] = [1, 1] := by
    norm_num [aggregate, addOrder, bumpQ, List.getD]
    rfl
  rw [hagg]
  norm_num [Except.toOption]

/-- C5: calling the posterior driver with `nBallots < nObserved` fails with
InvalidArgument and returns the receiver exactly as it was: the check is the
first statement of `samplePosterior`, before the reseeding. -/
theorem samplePosterior_rejects_small_nBallots (ops : EngineOps) (sampleFn : SampleFn)
    (r : RDirichletTree) (nElections nBallots nWinners nBatches : Nat) (seed : String)
    (h : nBallots < r.nObserved) :
    RDirichletTree.samplePosterior ops sampleFn r nElections nBallots nWinners nBatches seed
      = (r, .error .invalidArgument) := by
  unfold RDirichletTree.samplePosterior RDirichletTree.samplePosteriorSched
  rw [if_pos h]

/-- C5 witness: the tree that observed one ballot rejects `nBallots = 0`. -/
theorem samplePosterior_rejects_small_nBallots_witness :
    RDirichletTree.samplePosterior toyOps toySample r1 5 0 1 1 "s"
      = (r1, .error .invalidArgument) :=
  samplePosterior_rejects_small_nBallots toyOps toySample r1 5 0 1 1 "s" (by decide)

/-! ### Helper lemmas: ballot parsing -/

theorem parseBallot_error_of_unknown (candMap : String → Option Nat) :
    ∀ (b : List String), (∃ nm ∈ b, candMap nm = none) →
      parseBallot candMap b = .error .invalidArgument := by
  intro b
  induction b with
  | nil =>
      rintro ⟨nm, h, _⟩
      exact absurd h (List.not_mem_nil nm)
  | cons nm0 rest ih =>
      rintro ⟨nm, hmem, hnone⟩
      rcases List.mem_cons.mp hmem with h1 | h1
      · subst h1
        simp [parseBallot, hnone]
      · simp only [parseBallot]
        rw [ih ⟨nm, h1, hnone⟩]
        cases hc : candMap nm0 <;> rfl

theorem parseBallot_of_known (candMap : String → Option Nat) :
    ∀ (b : List String), (∀ nm ∈ b, candMap nm ≠ none) →
      parseBallot candMap b = .ok (b.map (fun nm => (candMap nm).getD 0)) := by
  intro b
  induction b with
  | nil => intro _; rfl
  | cons nm0 rest ih =>
      intro h
      cases hc : candMap nm0 with
      | none => exact absurd hc (h nm0 (by simp))
      | some i =>
          simp only [parseBallot, hc]
          rw [ih (fun nm hm => h nm (List.mem_cons_of_mem _ hm))]
          simp [hc]

theorem parseBallotList_error_of_unknown (candMap : String → Option Nat) :
    ∀ (bs : List (List String)), (∃ b ∈ bs, ∃ nm ∈ b, candMap nm = none) →
      parseBallotList candMap bs = .error .invalidArgument := by
  intro bs
  induction bs with
  | nil =>
      rintro ⟨b, h, _⟩
      exact absurd h (List.not_mem_nil b)
  | cons b0 rest ih =>
      rintro ⟨b, hmem, hun⟩
      rcases List.mem_cons.mp hmem with h1 | h1
      · subst h1
        simp only [parseBallotList, parseBallot_error_of_unknown candMap b hun]
      · simp only [parseBallotList, ih ⟨b, h1, hun⟩]
        cases hc : parseBallot candMap b0 with
        | error er => cases er; rfl
        | ok ib => rfl

theorem parseBallotList_of_known (candMap : String → Option Nat) :
    ∀ (bs : List (List String)), (∀ b ∈ bs, ∀ nm ∈ b, candMap nm ≠ none) →
      parseBallotList candMap bs
        = .ok (bs.map (fun b => (b.map (fun nm => (candMap nm).getD 0), 1))) := by
  intro bs
  induction bs with
  | nil => intro _; rfl
  | cons b0 rest ih =>
      intro h
      simp only [parseBallotList, parseBallot_of_known candMap b0 (h b0 (by simp)),
        ih (fun b hb nm hnm => h b (List.mem_cons_of_mem _ hb) nm hnm)]
      rfl

/-- C6: `update` fails with InvalidArgument whenever some ballot contains an
unknown candidate name (a name outside the candidate vector, i.e. an index
outside `[0, n)`) or repeats a candidate, and on failure the tree state is
exactly as before the call. -/
theorem update_rejects_invalid_ballots (r : RDirichletTree) (ballots : List (List String))
    (hbad : ∃ b ∈ ballots, (∃ nm ∈ b, lookupCand r.candidateVector nm = none) ∨ ¬ b.Nodup) :
    RDirichletTree.update r ballots = (r, .error .invalidArgument) := by
  by_cases hun : ∃ b ∈ ballots, ∃ nm ∈ b, lookupCand r.candidateVector nm = none
  · unfold RDirichletTree.update
    simp only [parseBallotList_error_of_unknown _ ballots hun]
  · push_neg at hun
    obtain ⟨b, hbmem, hdis⟩ := hbad
    have hdup : ¬ b.Nodup := by
      rcases hdis with h1 | h1
      · obtain ⟨nm, hnm, hnone⟩ := h1
        exact absurd hnone (hun b hbmem nm hnm)
      · exact h1
    have hmapdup : ¬ (b.map (fun nm => (lookupCand r.candidateVector nm).getD 0)).Nodup := by
      intro hnd
      exact hdup hnd.of_map
    have hany : (ballots.map
        (fun b => (b.map (fun nm => (lookupCand r.candidateVector nm).getD 0), 1))).any
          (fun bc => decide ¬ bc.1.Nodup) = true := by
      rw [List.any_eq_true]
      exact ⟨_, List.mem_map.mpr ⟨b, hbmem, rfl⟩, decide_eq_true hmapdup⟩
    unfold RDirichletTree.update
    simp only [parseBallotList_of_known _ ballots hun]
    rw [if_pos hany]

/-- C6 witness: a ballot repeating candidate `A` is rejected without
mutating the fresh tree. -/
theorem update_rejects_invalid_ballots_witness :
    RDirichletTree.update r0 [["A", "A"]] = (r0, .error .invalidArgument) :=
  update_rejects_invalid_ballots r0 [["A", "A"]]
    ⟨["A", "A"], by decide, Or.inr (by decide)⟩

/-! ### Helper lemmas: schedule independence of the batch driver -/

theorem map_congr_mem {α β : Type} (f g : α → β) :
    ∀ (l : List α), (∀ a ∈ l, f a = g a) → l.map f = l.map g := by
  intro l
  induction l with
  | nil => intro _; rfl
  | cons x xs ih =>
      intro h
      simp only [List.map_cons]
      rw [h x (by simp), ih (fun a ha => h a (List.mem_cons_of_mem _ ha))]

theorem runSchedule_of_not_mem {α : Type} (compute : Nat → α) :
    ∀ (sched : List Nat) (res : Nat → α) (i : Nat), i ∉ sched →
      runSchedule compute sched res i = res i := by
  intro sched
  induction sched with
  | nil => intro res i _; rfl
  | cons j rest ih =>
      intro res i hi
      have hij : i ≠ j := fun h => hi (h ▸ List.mem_cons_self j rest)
      have hrest : i ∉ rest := fun h => hi (List.mem_cons_of_mem _ h)
      simp only [runSchedule]
      rw [ih _ i hrest, Function.update_noteq hij]

theorem runSchedule_of_mem {α : Type} (compute : Nat → α) :
    ∀ (sched : List Nat) (res : Nat → α) (i : Nat), i ∈ sched →
      runSchedule compute sched res i = compute i := by
  intro sched
  induction sched with
  | nil => intro res i hi; exact absurd hi (List.not_mem_nil i)
  | cons j rest ih =>
      intro res i hi
      by_cases hr : i ∈ rest
      · simp only [runSchedule]
        exact ih _ i hr
      · have hij : i = j := by
          rcases List.mem_cons.mp hi with h | h
          · exact h
          · exact absurd h hr
        subst hij
        simp only [runSchedule]
        rw [runSchedule_of_not_mem compute rest _ i hr, Function.update_same]

theorem samplePosteriorWith_congr (f g : Nat → List (List Nat)) (nCands nW nBatches nE : Nat)
    (h : ∀ i, i < nBatches + 1 → f i = g i) :
    samplePosteriorWith f nCands nW nBatches nE = samplePosteriorWith g nCands nW nBatches nE := by
  have hmap : (List.range (nBatches + 1)).map f = (List.range (nBatches + 1)).map g :=
    map_congr_mem f g _ (fun i hi => h i (List.mem_range.mp hi))
  unfold samplePosteriorWith
  rw [hmap]

/-- C4: the posterior driver is deterministic with respect to thread
scheduling and pool width. Every batch writes the same slot value wherever
it appears in the execution order (its result depends only on its pinned
seed slot), and the aggregation reads the slots in a fixed order, so any two
runs with the same inputs and any two schedules covering the batch slots
produce identical results — the thread-count argument is not consulted at
all. -/
theorem samplePosterior_schedule_independent (ops : EngineOps) (sampleFn : SampleFn)
    (r : RDirichletTree) (nElections nBallots nWinners nBatches : Nat) (seed : String)
    (th1 th2 : Nat) (sched1 sched2 : List Nat)
    (h1 : ∀ i, i ≤ nBatches → i ∈ sched1) (h2 : ∀ i, i ≤ nBatches → i ∈ sched2) :
    RDirichletTree.samplePosteriorSched ops sampleFn r nElections nBallots nWinners nBatches
        seed th1 sched1
      = RDirichletTree.samplePosteriorSched ops sampleFn r nElections nBallots nWinners nBatches
        seed th2 sched2 := by
  simp only [RDirichletTree.samplePosteriorSched]
  by_cases hv : nBallots < r.nObserved
  · rw [if_pos hv, if_pos hv]
  · rw [if_neg hv, if_neg hv]
    congr 1
    congr 1
    apply samplePosteriorWith_congr
    intro i hi
    have hle : i ≤ nBatches := Nat.lt_succ_iff.mp hi
    rw [runSchedule_of_mem _ _ _ i (h1 i hle), runSchedule_of_mem _ _ _ i (h2 i hle)]

/-- C4 witness: reversing the schedule and changing the pool width leaves
the output of the concrete driver run unchanged. -/
theorem samplePosterior_schedule_independent_witness :
    RDirichletTree.samplePosteriorSched toyOps toySample r0 1 1 1 1 "s" 0 [0, 1]
      = RDirichletTree.samplePosteriorSched toyOps toySample r0 1 1 1 1 "s" 7 [1, 0] :=
  samplePosterior_schedule_independent toyOps toySample r0 1 1 1 1 "s" 0 7 [0, 1] [1, 0]
    (by intro i hi; interval_cases i <;> decide)
    (by intro i hi; interval_cases i <;> decide)

/-- C10: the claim says every sampling entry point leaves the PRNG in a
state determined by the arguments alone. `samplePosterior` validates
`nBallots` before reseeding, so a rejected call returns with the incoming
engine untouched: two calls with equal arguments but different incoming
engines end in different engine states. -/
theorem samplePosterior_error_keeps_engine :
    ¬ ((RDirichletTree.samplePosterior toyOps toySample
          (RDirichletTree.setEngine r1 0) 1 0 1 1 "s").1.tree.engine
        = (RDirichletTree.samplePosterior toyOps toySample
          (RDirichletTree.setEngine r1 17) 1 0 1 1 "s").1.tree.engine) := by
  decide

/-- C10 (amended): `samplePredictive` and `sampleMarginalProbability` begin
by reseeding the tree engine from the seed string, so their results and the
final engine state are independent of the incoming engine state;
`samplePosterior` behaves the same way on every call that passes its
`nBallots ≥ nObserved` validation. -/
theorem sampling_reseeds_engine_independent (ops : EngineOps) (sampleFn : SampleFn)
    (marginalFn : MarginalFn) (r : RDirichletTree) (e1 e2 : Engine) (nSamples : Nat)
    (seed : String) (nElections nBallots nWinners nBatches : Nat) (ballot : List String) :
    RDirichletTree.samplePredictive ops sampleFn (r.setEngine e1) nSamples seed
      = RDirichletTree.samplePredictive ops sampleFn (r.setEngine e2) nSamples seed ∧
    RDirichletTree.sampleMarginalProbability ops marginalFn (r.setEngine e1) nSamples ballot seed
      = RDirichletTree.sampleMarginalProbability ops marginalFn (r.setEngine e2) nSamples ballot seed ∧
    (r.nObserved ≤ nBallots →
      RDirichletTree.samplePosterior ops sampleFn (r.setEngine e1)
          nElections nBallots nWinners nBatches seed
        = RDirichletTree.samplePosterior ops sampleFn (r.setEngine e2)
          nElections nBallots nWinners nBatches seed) := by
  refine ⟨rfl, rfl, ?_⟩
  intro h
  have hv1 : ¬ (nBallots < (r.setEngine e1).nObserved) := not_lt.mpr h
  have hv2 : ¬ (nBallots < (r.setEngine e2).nObserved) := not_lt.mpr h
  unfold RDirichletTree.samplePosterior RDirichletTree.samplePosteriorSched
  rw [if_neg hv1, if_neg hv2]
  rfl

/-- C10 witness: the three entry points at concrete arguments, with two
different incoming engine states. -/
theorem sampling_reseeds_engine_independent_witness :
    RDirichletTree.samplePredictive toyOps toySample (r0.setEngine 3) 2 "s"
      = RDirichletTree.samplePredictive toyOps toySample (r0.setEngine 99) 2 "s" ∧
    RDirichletTree.sampleMarginalProbability toyOps toyMarginal (r0.setEngine 3) 2 ["A"] "s"
      = RDirichletTree.sampleMarginalProbability toyOps toyMarginal (r0.setEngine 99) 2 ["A"] "s" ∧
    RDirichletTree.samplePosterior toyOps toySample (r0.setEngine 3) 1 1 1 1 "s"
      = RDirichletTree.samplePosterior toyOps toySample (r0.setEngine 99) 1 1 1 1 "s" := by
  have h := sampling_reseeds_engine_independent toyOps toySample toyMarginal r0 3 99 2 "s"
    1 1 1 1 ["A"]
  exact ⟨h.1, h.2.1, h.2.2 (by decide)⟩
